import Mathlib

/-!
Verification development for the SMART-TASK-PLANNER repository (`app.py`).

The file shallowly embeds, over `List Char` / `String`:
  * the quota/rate-limit error classifier and retry-delay extraction of
    `create_plan_endpoint` (app.py lines 75-98),
  * the model-reply cleaning and JSON-candidate selection of `generate_plan`
    (app.py lines 160-192), together with a strict JSON parser modelling
    `json.loads`,
  * the HTTP mapping and persistence behaviour of `create_plan_endpoint`
    (app.py lines 73-119).

Machine-level caveats of the embedding are noted at the relevant
definitions (rational numbers in place of IEEE floats, ASCII lower-casing).
-/

/-! ### Character utilities -/

/-- Python `\s` / `str.strip()` whitespace, restricted to the ASCII range
(`' '`, `\t`, `\n`, `\r`, `\x0b`, `\x0c`). -/
def isPySpace (c : Char) : Bool :=
  c = ' ' || c = '\t' || c = '\n' || c = '\r' || c = '\x0b' || c = '\x0c'

/-- ASCII lower-casing of one character, modelling Python `str.lower()`
(which the app only applies to ASCII error text). -/
def lowerChar (c : Char) : Char := c.toLower

/-- `startsWithL s pat` : does the list `s` start with `pat`?  Models
`str.startswith` and anchored literal regex matching. -/
def startsWithL : List Char → List Char → Bool
  | _, [] => true
  | [], _ :: _ => false
  | c :: cs, d :: ds => c = d && startsWithL cs ds

/-- `containsL pat s` : does `pat` occur as a contiguous run inside `s`?
Models Python's `pat in s` for strings (leftmost scan). -/
def containsL (pat : List Char) : List Char → Bool
  | [] => pat.isEmpty
  | c :: rest => startsWithL (c :: rest) pat || containsL pat rest

/-- Drop the literal `pat` from the front of `s`, if present. -/
def dropLit : List Char → List Char → Option (List Char)
  | s, [] => some s
  | [], _ :: _ => none
  | c :: cs, d :: ds => if c = d then dropLit cs ds else none

/-- Drop the literal `pat` (given lower-cased) from the front of `s`,
comparing case-insensitively; models regex literals under `re.IGNORECASE`. -/
def dropLitCI : List Char → List Char → Option (List Char)
  | s, [] => some s
  | [], _ :: _ => none
  | c :: cs, d :: ds => if lowerChar c = d then dropLitCI cs ds else none

/-- Both-ends whitespace strip; models Python `str.strip()`. -/
def stripL (s : List Char) : List Char :=
  ((s.dropWhile isPySpace).reverse.dropWhile isPySpace).reverse

/-! ### Rate-limit classifier and retry-delay extraction (app.py 75-98)

`create_plan_endpoint` classifies an error message as rate-limited via
`'quota' in err_msg.lower() or '429' in err_msg` and then extracts a retry
delay with
`re.search(r'Please retry in\s*(\d+(?:\.\d+)?)s', err_msg, re.IGNORECASE)`,
falling back to `re.search(r'retry_delay\s*\x7b[^\x7d]*seconds:\s*(\d+)', err_msg)`,
and finally `int(math.ceil(float(group)))`.  Python parses the captured
digits into an IEEE double; the embedding parses them exactly into `ℚ`,
which agrees with the code for all digit strings short enough not to hit
double rounding at an integer boundary (in particular on every message
pattern the service actually emits). -/

/-- `'quota' in err_msg.lower() or '429' in err_msg` (app.py line 78). -/
def is_rate_limited (msg : String) : Bool :=
  containsL ("quota".toList) (msg.toList.map lowerChar) ||
    containsL ("429".toList) msg.toList

/-- Value of a (non-empty) digit run. -/
def digitsToNat (ds : List Char) : Nat :=
  ds.foldl (fun a c => a * 10 + (c.toNat - '0'.toNat)) 0

/-- The rational denoted by integer digits `ids` and fractional digits `fds`
(as in the captured group `\d+(?:\.\d+)?`): the exact value of the decimal
numeral `ids.fds`. -/
def digitsToRat (ids fds : List Char) : ℚ :=
  mkRat (digitsToNat ids * 10 ^ fds.length + digitsToNat fds) (10 ^ fds.length)

/-- Attempt the tail of the first retry pattern at one position: after the
case-insensitive literal `Please retry in` match `\s*(\d+(?:\.\d+)?)s`
(the optional fractional group backtracks deterministically because digits,
`.` and `s` are disjoint). -/
def matchRetryInAt (s : List Char) : Option ℚ :=
  match dropLitCI s ("please retry in".toList) with
  | none => none
  | some s1 =>
    let s2 := s1.dropWhile isPySpace
    let ids := s2.takeWhile Char.isDigit
    let s3 := s2.dropWhile Char.isDigit
    if ids.isEmpty then none
    else
      match s3 with
      | '.' :: s4 =>
        let fds := s4.takeWhile Char.isDigit
        let s5 := s4.dropWhile Char.isDigit
        if fds.isEmpty then none
        else
          match s5 with
          | c :: _ => if lowerChar c = 's' then some (digitsToRat ids fds) else none
          | [] => none
      | c :: _ => if lowerChar c = 's' then some (digitsToRat ids []) else none
      | [] => none

/-- Leftmost search for the first retry pattern
(`re.search(r'Please retry in\s*(\d+(?:\.\d+)?)s', msg, re.IGNORECASE)`),
returning the captured number. -/
def searchRetryIn : List Char → Option ℚ
  | [] => none
  | c :: rest =>
    match matchRetryInAt (c :: rest) with
    | some q => some q
    | none => searchRetryIn rest

/-- `seconds:\s*(\d+)` attempted at one position. -/
def matchSecondsAt (s : List Char) : Option Nat :=
  match dropLit s ("seconds:".toList) with
  | none => none
  | some s1 =>
    let s2 := s1.dropWhile isPySpace
    let ds := s2.takeWhile Char.isDigit
    if ds.isEmpty then none else some (digitsToNat ds)

/-- Backtracking of the greedy `[^\x7d]*` inside the second retry pattern:
try consuming `j` characters of the non-`\x7d` run, longest first, before
requiring `seconds:\s*(\d+)`. -/
def trySecondsFrom (s : List Char) : Nat → Option Nat
  | 0 => matchSecondsAt s
  | j + 1 =>
    match matchSecondsAt (s.drop (j + 1)) with
    | some n => some n
    | none => trySecondsFrom s j

/-- Attempt the second retry pattern
`retry_delay\s*\x7b[^\x7d]*seconds:\s*(\d+)` at one position. -/
def matchRetryDelayAt (s : List Char) : Option Nat :=
  match dropLit s ("retry_delay".toList) with
  | none => none
  | some s1 =>
    match s1.dropWhile isPySpace with
    | '\x7b' :: s2 => trySecondsFrom s2 (s2.takeWhile (fun c => ¬ c = '\x7d')).length
    | _ => none

/-- Leftmost search for the second retry pattern. -/
def searchRetryDelay : List Char → Option Nat
  | [] => none
  | c :: rest =>
    match matchRetryDelayAt (c :: rest) with
    | some n => some n
    | none => searchRetryDelay rest

/-- Retry-delay extraction of app.py lines 81-88: first pattern wins when it
matches; otherwise the second; `int(math.ceil(float(group)))` becomes the
rational ceiling. -/
def extractRetryAfter (msg : String) : Option Nat :=
  match searchRetryIn msg.toList with
  | some q => some (Int.toNat (Int.ceil q))
  | none => searchRetryDelay msg.toList

/-- The classifier output of the spec: the rate-limited flag plus the retry
delay the handler would attach (the handler only extracts a delay inside the
rate-limited branch, app.py lines 78-88). -/
def classify (msg : String) : Bool × Option Nat :=
  if is_rate_limited msg then (true, extractRetryAfter msg) else (false, none)

example : is_rate_limited "Rate limit: Please retry in 12.4s" = false := by decide
example : searchRetryIn ("Rate limit: Please retry in 12.4s".toList) = some (mkRat 124 10) := by decide
example : extractRetryAfter "Rate limit: Please retry in 12.4s" = some 13 := by decide
example : classify "429 Rate limit: Please retry in 12.4s" = (true, some 13) := by decide
example : extractRetryAfter "quota: retry_delay \x7b seconds: 7 \x7d" = some 7 := by decide
example : classify "Internal server fault" = (false, none) := by decide

/-! ### Model-reply cleaning (app.py 163-179)

`generate_plan` cleans the raw reply with
`(raw_text or '').strip()`, then
`re.sub(r"^```(?:json)?\s*", '', text, flags=re.IGNORECASE)`, then
`re.sub(r"\s*```$", '', text)`, then strips a leading bare `json` token,
and finally selects the candidate with `re.search(r"\{[\s\S]*\}", text)`
(`\x7b ... \x7d` braces), using `group(0).strip()` when it matches and the
whole cleaned text otherwise. -/

/-- The anchored substitution `re.sub(r"^```(?:json)?\s*", '', s, re.IGNORECASE)`:
drop a leading fence, its optional (greedy) `json` tag and following
whitespace. -/
def stripLeadFence (s : List Char) : List Char :=
  match dropLit s ("```".toList) with
  | none => s
  | some r =>
    match dropLitCI r ("json".toList) with
    | some r2 => r2.dropWhile isPySpace
    | none => r.dropWhile isPySpace

/-- The anchored substitution `re.sub(r"\s*```$", '', s)`: drop a trailing
fence and the whitespace run before it.  (The input it receives has already
been `strip()`ped, so the end-of-string anchor is exact.) -/
def stripTrailFence (s : List Char) : List Char :=
  match dropLit s.reverse ("```".toList) with
  | none => s
  | some r => (r.dropWhile isPySpace).reverse

/-- Lines 171-172: if the cleaned text lower-cases to something starting
with `json`, drop those four characters and `strip()` again. -/
def stripJsonToken (s : List Char) : List Char :=
  if startsWithL (s.map lowerChar) ("json".toList) then stripL (s.drop 4) else s

/-- The full cleaning pipeline (lines 164-172) on a character list. -/
def cleanReplyL (t : List Char) : List Char :=
  stripJsonToken (stripTrailFence (stripLeadFence (stripL t)))

/-- The full cleaning pipeline applied to the raw reply text (line 164-172);
`none` models a reply object whose `text` attribute is `None`, which
`(raw_text or '')` turns into the empty string. -/
def cleanReply (raw : Option String) : List Char :=
  cleanReplyL ((raw.getD "").toList)

/-- `[^\x7d]` as a character predicate. -/
def notBrace (c : Char) : Bool := ¬ c = '\x7d'

/-- The greedy `[\s\S]*` of `\x7b[\s\S]*\x7d`, backtracked to the last `\x7d`:
the prefix of `s` up to and including its last `\x7d`, if any. -/
def lastBraceSplit (s : List Char) : Option (List Char) :=
  match s.reverse.dropWhile notBrace with
  | [] => none
  | a :: r => some ((a :: r).reverse)

/-- Attempt `\x7b[\s\S]*\x7d` at one position. -/
def braceMatchAt : List Char → Option (List Char)
  | [] => none
  | c :: rest =>
    if c = '\x7b' then (lastBraceSplit rest).map (fun p => '\x7b' :: p) else none

/-- Leftmost search `re.search(r"\{[\s\S]*\}", s)` (braces written `\x7b \x7d`). -/
def braceSearch : List Char → Option (List Char)
  | [] => none
  | c :: rest =>
    match braceMatchAt (c :: rest) with
    | some m => some m
    | none => braceSearch rest

/-- Lines 175-179: the JSON candidate handed to `json.loads` —
`json_match.group(0).strip()` when the brace regex matches, otherwise the
whole cleaned text. -/
def jsonCandidate (t : List Char) : List Char :=
  match braceSearch t with
  | some m => stripL m
  | none => t

/-! Spec-side formulation of the candidate selection (spec §4.1 step 4):
"the first substring that begins with `\x7b` and ends with the last `\x7d` in
the text ... if found, treat that substring as the JSON candidate, else use
the whole cleaned text". -/

/-- Index of the first occurrence of `x`, if any. -/
def firstIdx (x : Char) : List Char → Option Nat
  | [] => none
  | c :: r => if c = x then some 0 else (firstIdx x r).map (· + 1)

/-- Index of the last occurrence of `x`, if any. -/
def lastIdx (x : Char) : List Char → Option Nat
  | [] => none
  | c :: r =>
    match lastIdx x r with
    | some k => some (k + 1)
    | none => if c = x then some 0 else none

/-- Modelled from the spec's words: the substring running from the first
`\x7b` to the last `\x7d` when that span exists, else the whole text. -/
def specCandidate (t : List Char) : List Char :=
  match firstIdx '\x7b' t, lastIdx '\x7d' t with
  | some i, some j => if i < j then (t.drop i).take (j - i + 1) else t
  | _, _ => t

example : jsonCandidate ("no braces at all".toList) = "no braces at all".toList := by decide
example : jsonCandidate ("x \x7b\"a\":1\x7d y \x7b2\x7d z".toList) = "\x7b\"a\":1\x7d y \x7b2\x7d".toList := by decide
example : specCandidate ("x \x7b\"a\":1\x7d y \x7b2\x7d z".toList) = "\x7b\"a\":1\x7d y \x7b2\x7d".toList := by decide
example : jsonCandidate ("\x7d\x7b".toList) = "\x7d\x7b".toList := by decide
example : cleanReply (some "  ```json\n\x7b\"a\": 1\x7d\n```  ") = "\x7b\"a\": 1\x7d".toList := by decide
example : cleanReply (some "JSON \x7b\"a\": 1\x7d") = "\x7b\"a\": 1\x7d".toList := by decide
example : cleanReply none = [] := by decide

/-! ### JSON values and a model of `json.loads`

Strict-mode `json.loads` over the standard JSON grammar.  Embedding notes:
numbers are parsed exactly into `ℚ` (Python parses fractional/exponent forms
into IEEE doubles and plain integers into exact `int`s); the nonstandard
`NaN`/`Infinity` literals Python additionally accepts, and lone surrogate
`\uXXXX` escapes (not representable in a Lean `Char`), are treated as parse
failures.  Objects become key/value lists with Python-`dict` insertion
semantics (a repeated key overwrites in place). -/

inductive Json where
  | null : Json
  | bool : Bool → Json
  | num : ℚ → Json
  | str : String → Json
  | arr : List Json → Json
  | obj : List (String × Json) → Json

/-- JSON inter-token whitespace (`' '`, `\t`, `\n`, `\r`). -/
def isJsonWs (c : Char) : Bool := c = ' ' || c = '\t' || c = '\n' || c = '\r'

/-- Skip JSON whitespace. -/
def skipWs (s : List Char) : List Char := s.dropWhile isJsonWs

/-- Value of a hexadecimal digit. -/
def hexVal (c : Char) : Option Nat :=
  if '0' ≤ c ∧ c ≤ '9' then some (c.toNat - '0'.toNat)
  else if 'a' ≤ c ∧ c ≤ 'f' then some (c.toNat - 'a'.toNat + 10)
  else if 'A' ≤ c ∧ c ≤ 'F' then some (c.toNat - 'A'.toNat + 10)
  else none

/-- Body of a JSON string after the opening quote: returns the decoded string
and the text after the closing quote.  Strict mode: raw control characters
are rejected. -/
def parseStrAux : Nat → List Char → List Char → Option (String × List Char)
  | 0, _, _ => none
  | _ + 1, [], _ => none
  | fuel + 1, c :: rest, acc =>
    if c = '"' then some (String.mk acc.reverse, rest)
    else if c = '\\' then
      match rest with
      | [] => none
      | e :: rest2 =>
        if e = '"' then parseStrAux fuel rest2 ('"' :: acc)
        else if e = '\\' then parseStrAux fuel rest2 ('\\' :: acc)
        else if e = '/' then parseStrAux fuel rest2 ('/' :: acc)
        else if e = 'b' then parseStrAux fuel rest2 ('\x08' :: acc)
        else if e = 'f' then parseStrAux fuel rest2 ('\x0c' :: acc)
        else if e = 'n' then parseStrAux fuel rest2 ('\n' :: acc)
        else if e = 'r' then parseStrAux fuel rest2 ('\r' :: acc)
        else if e = 't' then parseStrAux fuel rest2 ('\t' :: acc)
        else if e = 'u' then
          match rest2 with
          | h1 :: h2 :: h3 :: h4 :: rest3 =>
            match hexVal h1, hexVal h2, hexVal h3, hexVal h4 with
            | some a, some b, some c2, some d =>
              let n := ((a * 16 + b) * 16 + c2) * 16 + d
              if n < 55296 ∨ 57344 ≤ n then parseStrAux fuel rest3 (Char.ofNat n :: acc)
              else none
            | _, _, _, _ => none
          | _ => none
        else none
    else if c.toNat < 32 then none
    else parseStrAux fuel rest (c :: acc)

/-- The exact rational `±mant · 10^scale` (the value a JSON number denotes). -/
def decimalToRat (neg : Bool) (mant : Nat) (scale : Int) : ℚ :=
  let m : Int := if neg then -(mant : Int) else (mant : Int)
  if 0 ≤ scale then ((m * (10 : Int) ^ scale.toNat : Int) : ℚ)
  else Rat.divInt m ((10 : Int) ^ (-scale).toNat)

/-- JSON number at the head of `s`, mirroring Python's `NUMBER_RE`
`(-?(?:0|[1-9]\d*))(\.\d+)?([eE][-+]?\d+)?`: the optional fraction and
exponent groups consume nothing when they fail to match in full. -/
def parseNum (s : List Char) : Option (ℚ × List Char) :=
  let signed := match s with
    | '-' :: r => (true, r)
    | _ => (false, s)
  let neg := signed.1
  let s1 := signed.2
  let intSplit :=
    match s1 with
    | '0' :: r => (['0'], r)
    | _ => (s1.takeWhile Char.isDigit, s1.dropWhile Char.isDigit)
  let ids := intSplit.1
  let s2 := intSplit.2
  if ids.isEmpty then none
  else
    let fracSplit :=
      match s2 with
      | '.' :: r =>
        let fds := r.takeWhile Char.isDigit
        if fds.isEmpty then (([] : List Char), s2) else (fds, r.dropWhile Char.isDigit)
      | _ => (([] : List Char), s2)
    let fds := fracSplit.1
    let s3 := fracSplit.2
    let expSplit :=
      match s3 with
      | e :: r =>
        if e = 'e' ∨ e = 'E' then
          let esigned := match r with
            | '-' :: rr => (true, rr)
            | '+' :: rr => (false, rr)
            | _ => (false, r)
          let eds := esigned.2.takeWhile Char.isDigit
          if eds.isEmpty then ((0 : Int), s3)
          else
            let ev : Int := (digitsToNat eds : Int)
            ((if esigned.1 then -ev else ev), esigned.2.dropWhile Char.isDigit)
        else ((0 : Int), s3)
      | [] => ((0 : Int), s3)
    let expv := expSplit.1
    let s4 := expSplit.2
    let mant := digitsToNat ids * 10 ^ fds.length + digitsToNat fds
    some (decimalToRat neg mant (expv - (fds.length : Int)), s4)

/-- Python-`dict` insertion: a repeated key overwrites its value in place,
a fresh key is appended. -/
def insertKV : List (String × Json) → String → Json → List (String × Json)
  | [], k, v => [(k, v)]
  | (k0, v0) :: t, k, v =>
    if k0 = k then (k0, v) :: t else (k0, v0) :: insertKV t k v

/-- First (hence, for parser output, only) value bound to key `k`. -/
def lookupKV (kvs : List (String × Json)) (k : String) : Option Json :=
  match kvs with
  | [] => none
  | (k0, v0) :: t => if k0 = k then some v0 else lookupKV t k

/-- Object members after the opening brace (first member already known to be
present); `rec` parses one value at the remaining nesting budget. -/
def parseMembersAux (rec : List Char → Option (Json × List Char)) :
    Nat → List Char → List (String × Json) → Option (Json × List Char)
  | 0, _, _ => none
  | fuel + 1, s, acc =>
    match s with
    | '"' :: rest =>
      match parseStrAux (rest.length + 1) rest [] with
      | none => none
      | some (k, r1) =>
        match skipWs r1 with
        | ':' :: r2 =>
          match rec (skipWs r2) with
          | none => none
          | some (v, r3) =>
            match skipWs r3 with
            | ',' :: r4 => parseMembersAux rec fuel (skipWs r4) (insertKV acc k v)
            | '\x7d' :: r4 => some (Json.obj (insertKV acc k v), r4)
            | _ => none
        | _ => none
    | _ => none

/-- Array elements after the opening bracket (first element already known to
be present). -/
def parseElemsAux (rec : List Char → Option (Json × List Char)) :
    Nat → List Char → List Json → Option (Json × List Char)
  | 0, _, _ => none
  | fuel + 1, s, acc =>
    match rec s with
    | none => none
    | some (v, r1) =>
      match skipWs r1 with
      | ',' :: r2 => parseElemsAux rec fuel (skipWs r2) (v :: acc)
      | ']' :: r2 => some (Json.arr (v :: acc).reverse, r2)
      | _ => none

/-- One JSON value at the head of `s` (whitespace already skipped), with a
nesting-depth budget `fuel`. -/
def parseValue : Nat → List Char → Option (Json × List Char)
  | 0, _ => none
  | fuel + 1, s =>
    match s with
    | [] => none
    | '"' :: rest => (parseStrAux (rest.length + 1) rest []).map (fun p => (Json.str p.1, p.2))
    | '\x7b' :: rest =>
      match skipWs rest with
      | '\x7d' :: r => some (Json.obj [], r)
      | s1 => parseMembersAux (parseValue fuel) (s1.length + 1) s1 []
    | '[' :: rest =>
      match skipWs rest with
      | ']' :: r => some (Json.arr [], r)
      | s1 => parseElemsAux (parseValue fuel) (s1.length + 1) s1 []
    | 't' :: rest => (dropLit rest ("rue".toList)).map (fun r => (Json.bool true, r))
    | 'f' :: rest => (dropLit rest ("alse".toList)).map (fun r => (Json.bool false, r))
    | 'n' :: rest => (dropLit rest ("ull".toList)).map (fun r => (Json.null, r))
    | _ => (parseNum s).map (fun p => (Json.num p.1, p.2))

/-- `json.loads` model: one value, with only whitespace around it. -/
def parseJson (s : List Char) : Option Json :=
  match parseValue (s.length + 1) (skipWs s) with
  | some (v, rest) => if (skipWs rest).isEmpty then some v else none
  | none => none

example : parseJson ("\x7b\"project_name\":\"X\",\"tasks\":[]\x7d".toList) =
    some (Json.obj [("project_name", Json.str "X"), ("tasks", Json.arr [])]) := rfl
example : parseJson ("".toList) = none := rfl
example : parseJson (" [1, -2.5e1, true, null, \"a\\n\"] ".toList) =
    some (Json.arr [Json.num 1, Json.num (mkRat (-25) 1), Json.bool true, Json.null,
      Json.str "a\n"]) := rfl
example : parseJson ("\x7b\"a\":1,\"a\":2\x7d".toList) = some (Json.obj [("a", Json.num 2)]) := rfl
example : parseJson ("\x7b\"a\":1\x7d x".toList) = none := rfl

/-! ### `generate_plan` (app.py 157-196) and the endpoint (app.py 61-119) -/

/-- The fixed message of the malformed-JSON error result (app.py line 192). -/
def invalidJsonMsg : String :=
  "AI returned invalid JSON. See server logs or last_raw_model_response.txt for details."

/-- Normalisation of a cleaned reply: parse the selected candidate, returning
the parsed structure on success and the classified malformed-JSON error
result on failure.  (The debug-artifact write of lines 187-191 is a
side-channel effect with no influence on the returned value and is not
modelled.) -/
def normalizeReplyL (t : List Char) : Json :=
  match parseJson (jsonCandidate t) with
  | some plan => plan
  | none => Json.obj [("error", Json.str invalidJsonMsg)]

/-- Cleaning followed by normalisation, on a character list. -/
def normalizeRawL (t : List Char) : Json :=
  normalizeReplyL (cleanReplyL t)

/-- The whole reply-normalisation path of `generate_plan` (lines 160-192),
from the raw `response.text` (possibly `None`) to the returned structure. -/
def normalizeReply (raw : Option String) : Json :=
  normalizeRawL ((raw.getD "").toList)

/-- The dummy plan returned when `DISABLE_AI` is set (lines 148-155). -/
def dummyPlan (goal : String) : Json :=
  Json.obj [("project_name", Json.str "Local Test Plan"),
    ("tasks", Json.arr [Json.obj [("task_id", Json.num 1),
      ("task_name", Json.str "Test task"), ("description", Json.str goal),
      ("timeline_days", Json.num 1), ("dependencies", Json.arr [])]])]

/-- `generate_plan` (lines 136-196).  The external generation call is an
oracle: `Except.error e` models `model.generate_content` raising an exception
whose message is `e` (line 193 catches it and returns `{"error": str(e)}`);
`Except.ok raw` models a reply whose `text` attribute is `raw` (possibly
`None`). -/
def generatePlan (disableAI : Bool) (goal : String)
    (gen : Except String (Option String)) : Json :=
  if disableAI then dummyPlan goal
  else
    match gen with
    | Except.ok raw => normalizeReply raw
    | Except.error e => Json.obj [("error", Json.str e)]

/-- Python `"error" in plan` (line 75) on an arbitrary parsed value:
key membership for a dict, element membership for a list, substring test for
a string; on any other value Python raises `TypeError`, modelled as `none`. -/
def pyMemError : Json → Option Bool
  | Json.obj kvs => some (kvs.any (fun kv => kv.1 = "error"))
  | Json.arr xs => some (xs.any (fun x => match x with
      | Json.str s => s = "error"
      | _ => false))
  | Json.str s => some (containsL ("error".toList) s.toList)
  | _ => none

/-- Python `str()` of the error value (line 77).  Faithful for strings,
booleans, `None` and integers — the only shapes this app's error values take
(every error result it builds is a string).  Container and non-integer
rendering approximates Python `repr` and is not relied on by any theorem. -/
def pyStr : Json → String
  | Json.str s => s
  | Json.bool true => "True"
  | Json.bool false => "False"
  | Json.null => "None"
  | Json.num q => if q.den = 1 then toString q.num else toString q
  | Json.arr _ => "<list repr not modelled>"
  | Json.obj _ => "<dict repr not modelled>"

/-- An HTTP response as the endpoint builds it: status code, extra headers
(`Retry-After` when set), JSON body. -/
structure HttpResponse where
  status : Nat
  headers : List (String × String)
  body : Json

/-- Outcome of the endpoint on a generated plan: the response sent to the
client, plus the record inserted into the `plans` store, if the insert
happened and succeeded.  (The stored row also carries the serialized JSON
string and a name; the claims only need whether a row was written.) -/
structure EndpointResult where
  resp : HttpResponse
  saved : Option Json

/-- app.py lines 75-119: what `create_plan_endpoint` does with the value
`generate_plan` returned.  `dbOk` is the persistence oracle: `false` means
the `sqlite3` insert raises (the `except` on line 115 swallows it).  The
result is `none` exactly when the handler itself raises (`TypeError` /
`AttributeError` on non-dict plans at lines 75-77), which Flask would turn
into a generic 500 outside this code. -/
def handlePlanResult (plan : Json) (dbOk : Bool) : Option EndpointResult :=
  match pyMemError plan with
  | none => none
  | some true =>
    match plan with
    | Json.obj kvs =>
      let err_msg := pyStr ((lookupKV kvs "error").getD (Json.str ""))
      if is_rate_limited err_msg then
        match extractRetryAfter err_msg with
        | some d =>
          some ⟨⟨429, [("Retry-After", toString d)],
            Json.obj [("error", Json.str err_msg), ("retry_after", Json.num d)]⟩, none⟩
        | none => some ⟨⟨429, [], Json.obj [("error", Json.str err_msg)]⟩, none⟩
      else some ⟨⟨500, [], Json.obj [("error", Json.str err_msg)]⟩, none⟩
    | _ => none
  | some false =>
    some ⟨⟨200, [], plan⟩, if dbOk then some plan else none⟩

example : (handlePlanResult (Json.obj [("error",
    Json.str "quota: Please retry in 2.5s")]) true).map (fun r => r.resp.status) = some 429 := rfl
example : handlePlanResult (Json.obj [("error", Json.str "quota: Please retry in 2.5s")]) true =
    some ⟨⟨429, [("Retry-After", "3")],
      Json.obj [("error", Json.str "quota: Please retry in 2.5s"),
        ("retry_after", Json.num 3)]⟩, none⟩ := rfl
example : handlePlanResult (Json.obj [("a", Json.num 1)]) false =
    some ⟨⟨200, [], Json.obj [("a", Json.num 1)]⟩, none⟩ := rfl

/-! ### Helper lemmas -/

theorem startsWithL_iff : ∀ (s pat : List Char), startsWithL s pat = true ↔ ∃ v, pat ++ v = s
  | s, [] => by simp [startsWithL]
  | [], _ :: _ => by simp [startsWithL]
  | c :: cs, d :: ds => by
    simp only [startsWithL, Bool.and_eq_true, decide_eq_true_eq, List.cons_append]
    rw [startsWithL_iff cs ds]
    constructor
    · rintro ⟨rfl, v, rfl⟩
      exact ⟨v, rfl⟩
    · rintro ⟨v, hv⟩
      obtain ⟨h1, h2⟩ := List.cons.inj hv
      exact ⟨h1.symm, v, h2⟩

theorem containsL_iff : ∀ (pat s : List Char), containsL pat s = true ↔ ∃ u v, u ++ pat ++ v = s
  | pat, [] => by
    simp [containsL, List.isEmpty_iff, List.append_eq_nil]
  | pat, c :: rest => by
    simp only [containsL, Bool.or_eq_true]
    rw [startsWithL_iff, containsL_iff pat rest]
    constructor
    · rintro (⟨v, hv⟩ | ⟨u, v, huv⟩)
      · exact ⟨[], v, by simpa using hv⟩
      · exact ⟨c :: u, v, by simp [huv]⟩
    · rintro ⟨u, v, huv⟩
      cases u with
      | nil => exact Or.inl ⟨v, by simpa using huv⟩
      | cons a u' =>
        obtain ⟨rfl, h2⟩ := List.cons.inj huv
        exact Or.inr ⟨u', v, h2⟩

theorem lookupKV_any {kvs : List (String × Json)} {k : String} {v : Json}
    (h : lookupKV kvs k = some v) : kvs.any (fun kv => kv.1 = k) = true := by
  induction kvs with
  | nil => simp [lookupKV] at h
  | cons hd t ih =>
    cases hd with
    | mk k0 v0 =>
      rw [lookupKV] at h
      by_cases hk : k0 = k
      · simp [hk]
      · rw [if_neg hk] at h
        simp [ih h]

theorem dropWhile_head_false {p : Char → Bool} :
    ∀ {l : List Char} {a : Char} {l' : List Char}, l.dropWhile p = a :: l' → p a = false := by
  intro l
  induction l with
  | nil => intro a l' h; simp [List.dropWhile] at h
  | cons c r ih =>
    intro a l' h
    rw [List.dropWhile_cons] at h
    by_cases hc : p c = true
    · rw [if_pos hc] at h; exact ih h
    · rw [if_neg hc] at h
      obtain ⟨rfl, -⟩ := List.cons.inj h.symm
      exact Bool.eq_false_iff.mpr hc

theorem dropLit_append : ∀ (pat r : List Char), dropLit (pat ++ r) pat = some r
  | [], r => by cases r <;> rfl
  | c :: cs, r => by
    simp only [List.cons_append, dropLit, if_pos rfl]
    exact dropLit_append cs r

theorem lastIdx_eq_none_iff (x : Char) : ∀ s : List Char, lastIdx x s = none ↔ x ∉ s := by
  intro s
  induction s with
  | nil => simp [lastIdx]
  | cons c r ih =>
    rw [lastIdx]
    cases h : lastIdx x r with
    | some k =>
      have hxr : x ∈ r := by
        by_contra hx
        rw [ih.mpr hx] at h
        exact Option.noConfusion h
      simp [List.mem_cons, hxr]
    | none =>
      have hxr : x ∉ r := ih.mp h
      by_cases hc : c = x
      · simp [hc]
      · rw [if_neg hc]
        constructor
        · intro _ hmem
          rcases List.mem_cons.mp hmem with h1 | h2
          · exact hc h1.symm
          · exact hxr h2
        · intro _
          rfl

theorem dropWhile_notBrace_nil {l : List Char} (h : '\x7d' ∉ l) :
    l.dropWhile notBrace = [] := by
  rw [List.dropWhile_eq_nil_iff]
  intro x hx
  simp only [notBrace, decide_eq_true_eq]
  intro h7
  exact h (h7 ▸ hx)

theorem lastBraceSplit_eq_none {s : List Char} (h : lastIdx '\x7d' s = none) :
    lastBraceSplit s = none := by
  have hmem : '\x7d' ∉ s := (lastIdx_eq_none_iff _ s).mp h
  have hd : s.reverse.dropWhile notBrace = [] :=
    dropWhile_notBrace_nil (fun hx => hmem (List.mem_reverse.mp hx))
  unfold lastBraceSplit
  rw [hd]

theorem lastBraceSplit_eq_some :
    ∀ {s : List Char} {k : Nat}, lastIdx '\x7d' s = some k →
      lastBraceSplit s = some (s.take (k + 1)) := by
  intro s
  induction s with
  | nil => intro k h; simp [lastIdx] at h
  | cons c r ih =>
    intro k h
    rw [lastIdx] at h
    cases hr : lastIdx '\x7d' r with
    | some k' =>
      rw [hr] at h
      obtain rfl : k' + 1 = k := Option.some.inj h
      have hs := ih hr
      cases hD : r.reverse.dropWhile notBrace with
      | nil =>
        unfold lastBraceSplit at hs
        rw [hD] at hs
        exact Option.noConfusion hs
      | cons a D' =>
        unfold lastBraceSplit at hs
        rw [hD] at hs
        have hDrev : (a :: D').reverse = r.take (k' + 1) := Option.some.inj hs
        have happ : (c :: r).reverse.dropWhile notBrace = a :: (D' ++ [c]) := by
          rw [List.reverse_cons, List.dropWhile_append, hD]
          simp
        unfold lastBraceSplit
        rw [happ]
        show some ((a :: (D' ++ [c])).reverse) = some (List.take (k' + 1 + 1) (c :: r))
        have hsh : ((a :: (D' ++ [c])).reverse : List Char) = c :: (a :: D').reverse := by
          simp
        rw [hsh, hDrev, List.take_succ_cons]
    | none =>
      rw [hr] at h
      by_cases hc : c = '\x7d'
      · rw [if_pos hc] at h
        obtain rfl : (0 : Nat) = k := Option.some.inj h
        have hmem : '\x7d' ∉ r := (lastIdx_eq_none_iff _ r).mp hr
        have hD : r.reverse.dropWhile notBrace = [] :=
          dropWhile_notBrace_nil (fun hx => hmem (List.mem_reverse.mp hx))
        subst hc
        have happ : ('\x7d' :: r).reverse.dropWhile notBrace = ['\x7d'] := by
          rw [List.reverse_cons, List.dropWhile_append, hD]
          simp [notBrace]
        unfold lastBraceSplit
        rw [happ]
        simp [List.take_succ_cons]
      · rw [if_neg hc] at h
        exact Option.noConfusion h

theorem braceSearch_spec : ∀ t : List Char,
    braceSearch t =
      (match firstIdx '\x7b' t, lastIdx '\x7d' t with
       | some i, some j => if i < j then some ((t.drop i).take (j - i + 1)) else none
       | _, _ => none) := by
  intro t
  induction t with
  | nil => rfl
  | cons c r ih =>
    by_cases hc : c = '\x7b'
    · subst hc
      cases hr : lastIdx '\x7d' r with
      | some k =>
        simp [braceSearch, braceMatchAt, lastBraceSplit_eq_some hr, firstIdx, lastIdx, hr,
          List.take_succ_cons]
      | none =>
        have hrnone : braceSearch r = none := by
          rw [ih]
          cases hf2 : firstIdx '\x7b' r <;> simp [hf2, hr]
        simp [braceSearch, braceMatchAt, lastBraceSplit_eq_none hr, firstIdx, lastIdx, hr, hrnone]
    · cases hf2 : firstIdx '\x7b' r with
      | none =>
        have hrnone : braceSearch r = none := by
          rw [ih]
          simp [hf2]
        cases hl2 : lastIdx '\x7d' r with
        | some j => simp [braceSearch, braceMatchAt, hc, firstIdx, lastIdx, hf2, hl2, hrnone]
        | none => simp [braceSearch, braceMatchAt, hc, firstIdx, lastIdx, hf2, hl2, hrnone]
      | some i =>
        cases hl2 : lastIdx '\x7d' r with
        | some j =>
          simp [braceSearch, braceMatchAt, hc, ih, firstIdx, lastIdx, hf2, hl2,
            Nat.succ_sub_succ, Nat.succ_lt_succ_iff, List.drop_succ_cons]
        | none =>
          have hrnone : braceSearch r = none := by
            rw [ih]
            simp [hf2, hl2]
          by_cases hcb : c = '\x7d'
          · simp [braceSearch, braceMatchAt, hc, firstIdx, lastIdx, hf2, hl2, hcb, hrnone]
          · simp [braceSearch, braceMatchAt, hc, firstIdx, lastIdx, hf2, hl2, hcb, hrnone]

theorem lastBraceSplit_shape {s m : List Char} (h : lastBraceSplit s = some m) :
    ∃ u, m = u ++ ['\x7d'] := by
  unfold lastBraceSplit at h
  cases hD : s.reverse.dropWhile notBrace with
  | nil => rw [hD] at h; exact Option.noConfusion h
  | cons a D' =>
    rw [hD] at h
    have hm : (a :: D').reverse = m := Option.some.inj h
    have ha : notBrace a = false := dropWhile_head_false hD
    have ha' : a = '\x7d' := by
      simpa [notBrace] using ha
    subst ha'
    exact ⟨D'.reverse, by rw [← hm]; simp⟩

theorem braceSearch_shape : ∀ {t m : List Char}, braceSearch t = some m →
    ∃ u, m = '\x7b' :: (u ++ ['\x7d']) := by
  intro t
  induction t with
  | nil => intro m h; exact Option.noConfusion h
  | cons c r ih =>
    intro m h
    rw [braceSearch] at h
    cases hb : braceMatchAt (c :: r) with
    | some m' =>
      rw [hb] at h
      have hm : m' = m := Option.some.inj h
      simp only [braceMatchAt] at hb
      by_cases hc : c = '\x7b'
      · rw [if_pos hc] at hb
        cases hl : lastBraceSplit r with
        | none => rw [hl] at hb; exact Option.noConfusion hb
        | some p =>
          rw [hl] at hb
          have hp : '\x7b' :: p = m' := Option.some.inj hb
          obtain ⟨u, hu⟩ := lastBraceSplit_shape hl
          exact ⟨u, by rw [← hm, ← hp, hu]⟩
      · rw [if_neg hc] at hb
        exact Option.noConfusion hb
    | none =>
      rw [hb] at h
      exact ih h

theorem stripL_braced (u : List Char) :
    stripL ('\x7b' :: (u ++ ['\x7d'])) = '\x7b' :: (u ++ ['\x7d']) := by
  unfold stripL
  rw [List.dropWhile_cons, if_neg (by decide)]
  have h1 : ('\x7b' :: (u ++ ['\x7d'])).reverse = '\x7d' :: (u.reverse ++ ['\x7b']) := by
    simp
  rw [h1, List.dropWhile_cons, if_neg (by decide)]
  rw [← h1, List.reverse_reverse]

theorem dropWhile_append_of_all {p : Char → Bool} :
    ∀ {l : List Char}, l.all p = true → ∀ s : List Char,
      (l ++ s).dropWhile p = s.dropWhile p := by
  intro l
  induction l with
  | nil => intro _ s; rfl
  | cons c r ih =>
    intro h s
    simp only [List.all_cons, Bool.and_eq_true] at h
    rw [List.cons_append, List.dropWhile_cons, if_pos h.1]
    exact ih h.2 s

theorem stripL_surround {wsa wsb : List Char} (ha : wsa.all isPySpace = true)
    (hb : wsb.all isPySpace = true) {c d : Char} (hc : isPySpace c = false)
    (hd : isPySpace d = false) (m : List Char) :
    stripL (wsa ++ ((c :: (m ++ [d])) ++ wsb)) = c :: (m ++ [d]) := by
  unfold stripL
  rw [dropWhile_append_of_all ha]
  rw [List.cons_append, List.dropWhile_cons, if_neg (by simp [hc])]
  have h1 : (c :: ((m ++ [d]) ++ wsb)).reverse = wsb.reverse ++ (d :: (m.reverse ++ [c])) := by
    simp
  rw [h1, dropWhile_append_of_all (by simpa using hb)]
  rw [List.dropWhile_cons, if_neg (by simp [hd])]
  simp

theorem stripTrailFence_eq_some {s r : List Char}
    (h : dropLit s.reverse ("```".toList) = some r) :
    stripTrailFence s = (r.dropWhile isPySpace).reverse := by
  unfold stripTrailFence
  rw [h]

theorem stripTrailFence_eq_none {s : List Char}
    (h : dropLit s.reverse ("```".toList) = none) :
    stripTrailFence s = s := by
  unfold stripTrailFence
  rw [h]

theorem stripTrailFence_braced (mid : List Char) :
    stripTrailFence (('\x7b' :: (mid ++ ['\x7d'])) ++ '\n' :: '`' :: '`' :: '`' :: []) =
      '\x7b' :: (mid ++ ['\x7d']) := by
  have hrev : ((('\x7b' :: (mid ++ ['\x7d'])) ++ '\n' :: '`' :: '`' :: '`' :: []).reverse :
      List Char) = '`' :: '`' :: '`' :: ('\n' :: ('\x7d' :: (mid.reverse ++ ['\x7b']))) := by
    simp
  have h2 : dropLit ((('\x7b' :: (mid ++ ['\x7d'])) ++ '\n' :: '`' :: '`' :: '`' :: []).reverse)
      ("```".toList) = some ('\n' :: ('\x7d' :: (mid.reverse ++ ['\x7b']))) := by
    rw [hrev]
    exact dropLit_append ("```".toList) _
  rw [stripTrailFence_eq_some h2]
  rw [List.dropWhile_cons, if_pos (by decide), List.dropWhile_cons, if_neg (by decide)]
  simp

theorem cleanReplyL_braced (mid : List Char) :
    cleanReplyL ('\x7b' :: (mid ++ ['\x7d'])) = '\x7b' :: (mid ++ ['\x7d']) := by
  unfold cleanReplyL
  rw [stripL_braced]
  have h1 : stripLeadFence ('\x7b' :: (mid ++ ['\x7d'])) = '\x7b' :: (mid ++ ['\x7d']) := rfl
  rw [h1]
  have h2 : dropLit (('\x7b' :: (mid ++ ['\x7d'])).reverse) ("```".toList) = none := by
    have hrev : (('\x7b' :: (mid ++ ['\x7d'])).reverse : List Char) =
        '\x7d' :: (mid.reverse ++ ['\x7b']) := by simp
    rw [hrev]
    rfl
  rw [stripTrailFence_eq_none h2]
  rfl

theorem cleanReplyL_fenced (wsa wsb mid : List Char) (ha : wsa.all isPySpace = true)
    (hb : wsb.all isPySpace = true) :
    cleanReplyL (wsa ++ (("```json\n".toList ++ ('\x7b' :: (mid ++ ['\x7d'])) ++
      "\n```".toList) ++ wsb)) = '\x7b' :: (mid ++ ['\x7d']) := by
  have hcore : ("```json\n".toList ++ ('\x7b' :: (mid ++ ['\x7d'])) ++ "\n```".toList :
      List Char) = '`' :: (('`' :: '`' :: 'j' :: 's' :: 'o' :: 'n' :: '\n' ::
        (('\x7b' :: (mid ++ ['\x7d'])) ++ '\n' :: '`' :: '`' :: [])) ++ ['`']) := by
    simp
  unfold cleanReplyL
  rw [hcore, stripL_surround ha hb (by decide) (by decide)]
  have hcons : ('`' : Char) :: (('`' :: '`' :: 'j' :: 's' :: 'o' :: 'n' :: '\n' ::
      (('\x7b' :: (mid ++ ['\x7d'])) ++ '\n' :: '`' :: '`' :: [])) ++ ['`']) =
      '`' :: '`' :: '`' :: 'j' :: 's' :: 'o' :: 'n' :: '\n' ::
        (('\x7b' :: (mid ++ ['\x7d'])) ++ '\n' :: '`' :: '`' :: '`' :: []) := by
    simp
  rw [hcons]
  have hlead : stripLeadFence ('`' :: '`' :: '`' :: 'j' :: 's' :: 'o' :: 'n' :: '\n' ::
      (('\x7b' :: (mid ++ ['\x7d'])) ++ '\n' :: '`' :: '`' :: '`' :: [])) =
      ('\x7b' :: (mid ++ ['\x7d'])) ++ '\n' :: '`' :: '`' :: '`' :: [] := rfl
  rw [hlead, stripTrailFence_braced]
  rfl

/-! ### Claims -/

/-- C1 (counterexample): for the error message `Rate limit: Please retry in 12.4s`
the handler does not take the rate-limit branch: the message contains neither
`quota` nor `429`, so the classifier returns is-rate-limited = false with no
retry delay, and the endpoint maps the error to a generic 500 — contradicting
the claim that it returns is-rate-limited = true with retry-after = 13. -/
theorem c1_counterexample :
    classify "Rate limit: Please retry in 12.4s" = (false, none) ∧
    handlePlanResult
        (Json.obj [("error", Json.str "Rate limit: Please retry in 12.4s")]) true =
      some ⟨⟨500, [], Json.obj [("error", Json.str "Rate limit: Please retry in 12.4s")]⟩,
        none⟩ :=
  ⟨by decide, rfl⟩

/-- C1 (amended): the extraction pattern does yield retry-after 13 (the ceiling
of 12.4) for the text `Please retry in 12.4s`, but the rate-limit branch is
entered only when the message contains `quota` or the token `429`; for the
message `429 Rate limit: Please retry in 12.4s` the classifier returns
is-rate-limited = true with retry-after = 13 and the handler takes the
rate-limit branch, answering 429 with that delay. -/
theorem c1_amended_rate_limit_example :
    extractRetryAfter "Rate limit: Please retry in 12.4s" = some 13 ∧
    classify "429 Rate limit: Please retry in 12.4s" = (true, some 13) ∧
    handlePlanResult
        (Json.obj [("error", Json.str "429 Rate limit: Please retry in 12.4s")]) true =
      some ⟨⟨429, [("Retry-After", "13")],
        Json.obj [("error", Json.str "429 Rate limit: Please retry in 12.4s"),
          ("retry_after", Json.num 13)]⟩, none⟩ :=
  ⟨by decide, by decide, rfl⟩

/-- C2: retry-delay extraction attempts the case-insensitive pattern
`Please retry in <number>s` first; only when it is absent does it attempt the
`retry_delay ... seconds: <integer>` pattern; the first successful match wins,
the result is the ceiling of the captured number, and the delay is absent when
neither pattern matches.  In particular a `retry_delay` block with
`seconds: 7` yields retry-after = 7. -/
theorem c2_retry_extraction_order :
    (∀ msg : String,
      (∀ q : ℚ, searchRetryIn msg.toList = some q →
        extractRetryAfter msg = some (Int.toNat (Int.ceil q))) ∧
      (searchRetryIn msg.toList = none → ∀ n : Nat,
        searchRetryDelay msg.toList = some n → extractRetryAfter msg = some n) ∧
      (searchRetryIn msg.toList = none → searchRetryDelay msg.toList = none →
        extractRetryAfter msg = none)) ∧
    extractRetryAfter "... retry_delay \x7b seconds: 7 \x7d ..." = some 7 := by
  constructor
  · intro msg
    refine ⟨?_, ?_, ?_⟩
    · intro q hq
      simp only [extractRetryAfter, hq]
    · intro h1 n h2
      simp only [extractRetryAfter, h1, h2]
    · intro h1 h2
      simp only [extractRetryAfter, h1, h2]
  · decide

theorem c2_retry_extraction_order_witness :
    extractRetryAfter "Please retry in 1.5s" = some (Int.toNat (Int.ceil (mkRat 15 10))) := by
  have h : searchRetryIn ("Please retry in 1.5s".toList) = some (mkRat 15 10) := by decide
  exact (c2_retry_extraction_order.1 "Please retry in 1.5s").1 (mkRat 15 10) h

/-- C3: a JSON object text wrapped in a ```json fenced block, possibly with
surrounding whitespace, normalizes to the same parsed structure as the bare
object text; the concrete fenced project/tasks example parses to the expected
object, identical to its bare form. -/
theorem c3_fenced_json_equiv :
    (∀ wsa wsb mid : List Char, wsa.all isPySpace = true → wsb.all isPySpace = true →
      normalizeRawL (wsa ++ (("```json\n".toList ++ ('\x7b' :: (mid ++ ['\x7d'])) ++
          "\n```".toList) ++ wsb)) =
        normalizeRawL ('\x7b' :: (mid ++ ['\x7d']))) ∧
    normalizeReply (some "  ```json\n\x7b\"project_name\":\"X\",\"tasks\":[]\x7d\n```  ") =
      Json.obj [("project_name", Json.str "X"), ("tasks", Json.arr [])] ∧
    normalizeReply (some "\x7b\"project_name\":\"X\",\"tasks\":[]\x7d") =
      Json.obj [("project_name", Json.str "X"), ("tasks", Json.arr [])] := by
  refine ⟨?_, rfl, rfl⟩
  intro wsa wsb mid ha hb
  unfold normalizeRawL
  rw [cleanReplyL_fenced wsa wsb mid ha hb, cleanReplyL_braced]

theorem c3_fenced_json_equiv_witness :
    normalizeRawL (" ".toList ++ (("```json\n".toList ++
        ('\x7b' :: ("\"a\":1".toList ++ ['\x7d'])) ++ "\n```".toList) ++ " ".toList)) =
      normalizeRawL ('\x7b' :: ("\"a\":1".toList ++ ['\x7d'])) :=
  c3_fenced_json_equiv.1 (" ".toList) (" ".toList) ("\"a\":1".toList) (by decide) (by decide)

/-- C4: a `None` or empty raw reply does not crash the normalizer: both are
treated as the empty string before cleaning and return the classified
malformed-JSON error result. -/
theorem c4_empty_null_reply :
    cleanReply none = cleanReply (some "") ∧
    normalizeReply none = Json.obj [("error", Json.str invalidJsonMsg)] ∧
    normalizeReply (some "") = Json.obj [("error", Json.str invalidJsonMsg)] :=
  ⟨rfl, rfl, rfl⟩

/-- C5: the JSON candidate the normalizer hands to the parser is the substring
from the first opening brace to the last closing brace of the cleaned text
when such a span exists, and the whole cleaned text otherwise. -/
theorem c5_brace_span_candidate : ∀ t : List Char, jsonCandidate t = specCandidate t := by
  intro t
  cases h : braceSearch t with
  | none =>
    have hs := braceSearch_spec t
    rw [h] at hs
    simp only [jsonCandidate, specCandidate, h]
    cases hf : firstIdx '\x7b' t with
    | none => simp [hf]
    | some i =>
      cases hl : lastIdx '\x7d' t with
      | none => simp [hf, hl]
      | some j =>
        simp only [hf, hl] at hs ⊢
        by_cases hij : i < j
        · rw [if_pos hij] at hs
          exact absurd hs (by simp)
        · rw [if_neg hij]
  | some m =>
    have hs := braceSearch_spec t
    rw [h] at hs
    obtain ⟨u, rfl⟩ := braceSearch_shape h
    simp only [jsonCandidate, specCandidate, h, stripL_braced]
    cases hf : firstIdx '\x7b' t with
    | none =>
      simp only [hf] at hs
      exact absurd hs (by simp)
    | some i =>
      cases hl : lastIdx '\x7d' t with
      | none =>
        simp only [hf, hl] at hs
        exact absurd hs (by simp)
      | some j =>
        simp only [hf, hl] at hs ⊢
        by_cases hij : i < j
        · rw [if_pos hij] at hs
          rw [if_pos hij]
          exact Option.some.inj hs
        · rw [if_neg hij] at hs
          exact absurd hs (by simp)

/-- C6: the classifier reports is-rate-limited = true exactly when the message
contains `quota` case-insensitively (a contiguous run of the lower-cased
message) or the literal token `429`; the message `Internal server fault` is
not rate-limited and carries no retry delay. -/
theorem c6_rate_limit_detection :
    (∀ msg : String, is_rate_limited msg = true ↔
      ((∃ u v, u ++ "quota".toList ++ v = msg.toList.map lowerChar) ∨
       (∃ u v, u ++ "429".toList ++ v = msg.toList))) ∧
    classify "Internal server fault" = (false, none) := by
  constructor
  · intro msg
    unfold is_rate_limited
    rw [Bool.or_eq_true, containsL_iff, containsL_iff]
  · decide

/-- C7: when the generated result is an error object whose (string) message is
classified rate-limited, the endpoint answers 429 and persists nothing; when a
delay was extracted the response carries a `Retry-After` header equal to the
delay and a body with both `error` and `retry_after` fields; when no delay was
extracted the 429 response has the error body and no header. -/
theorem c7_rate_limit_http_mapping :
    ∀ (kvs : List (String × Json)) (s : String) (dbOk : Bool),
      lookupKV kvs "error" = some (Json.str s) → is_rate_limited s = true →
      ((∀ d : Nat, extractRetryAfter s = some d →
        handlePlanResult (Json.obj kvs) dbOk =
          some ⟨⟨429, [("Retry-After", toString d)],
            Json.obj [("error", Json.str s), ("retry_after", Json.num d)]⟩, none⟩) ∧
       (extractRetryAfter s = none →
        handlePlanResult (Json.obj kvs) dbOk =
          some ⟨⟨429, [], Json.obj [("error", Json.str s)]⟩, none⟩)) := by
  intro kvs s dbOk hlk hrl
  have hmem : kvs.any (fun kv => kv.1 = "error") = true := lookupKV_any hlk
  constructor
  · intro d hd
    simp only [handlePlanResult, pyMemError, hmem, hlk, Option.getD_some, pyStr, hrl, hd]
    rw [if_pos trivial]
  · intro hnone
    simp only [handlePlanResult, pyMemError, hmem, hlk, Option.getD_some, pyStr, hrl, hnone]
    rw [if_pos trivial]

theorem c7_rate_limit_http_mapping_witness :
    handlePlanResult (Json.obj [("error", Json.str "quota: Please retry in 2.5s")]) true =
      some ⟨⟨429, [("Retry-After", toString (3 : Nat))],
        Json.obj [("error", Json.str "quota: Please retry in 2.5s"),
          ("retry_after", Json.num ((3 : Nat) : ℚ))]⟩, none⟩ :=
  ((c7_rate_limit_http_mapping [("error", Json.str "quota: Please retry in 2.5s")]
      "quota: Please retry in 2.5s" true rfl (by decide)).1) 3 (by decide)

/-- C8: every exception of the generation call is caught at the boundary:
`generate_plan` turns a raising call into the structured error object carrying
the raw exception message (being a total function of the generation outcome,
it lets no exception escape to the request handler). -/
theorem c8_generation_exception_caught :
    ∀ goal e : String, generatePlan false goal (Except.error e) =
      Json.obj [("error", Json.str e)] :=
  fun _ _ => rfl

/-- C9: persistence failure is invisible to the client: for a plan without a
top-level `error` key the endpoint replies 200 with the plan as body even when
the database insert raises, the response is identical whether the insert
succeeds or fails, and only the stored record differs. -/
theorem c9_persistence_failure_swallowed :
    ∀ kvs : List (String × Json), kvs.any (fun kv => kv.1 = "error") = false →
      handlePlanResult (Json.obj kvs) false =
        some ⟨⟨200, [], Json.obj kvs⟩, none⟩ ∧
      (handlePlanResult (Json.obj kvs) false).map (fun r => r.resp) =
        (handlePlanResult (Json.obj kvs) true).map (fun r => r.resp) ∧
      handlePlanResult (Json.obj kvs) true =
        some ⟨⟨200, [], Json.obj kvs⟩, some (Json.obj kvs)⟩ := by
  intro kvs h
  refine ⟨?_, ?_, ?_⟩ <;> simp [handlePlanResult, pyMemError, h]

theorem c9_persistence_failure_swallowed_witness :
    handlePlanResult (Json.obj [("project_name", Json.str "X")]) false =
      some ⟨⟨200, [], Json.obj [("project_name", Json.str "X")]⟩, none⟩ :=
  (c9_persistence_failure_swallowed [("project_name", Json.str "X")] (by decide)).1

/-- C10: a successfully parsed reply that is an object carrying a top-level
`error` key is treated as a failure: the endpoint answers 429 or 500 (never a
success), nothing is persisted, and the body's error message is the string
rendering of the value bound to that key. -/
theorem c10_error_key_is_failure :
    ∀ (kvs : List (String × Json)) (v : Json) (dbOk : Bool),
      lookupKV kvs "error" = some v →
      ∃ r : EndpointResult, handlePlanResult (Json.obj kvs) dbOk = some r ∧
        (r.resp.status = 429 ∨ r.resp.status = 500) ∧ r.saved = none ∧
        ∃ rest, r.resp.body = Json.obj (("error", Json.str (pyStr v)) :: rest) := by
  intro kvs v dbOk hlk
  have hmem : kvs.any (fun kv => kv.1 = "error") = true := lookupKV_any hlk
  have hred : handlePlanResult (Json.obj kvs) dbOk =
      (if is_rate_limited (pyStr v) then
        match extractRetryAfter (pyStr v) with
        | some d => some ⟨⟨429, [("Retry-After", toString d)],
            Json.obj [("error", Json.str (pyStr v)), ("retry_after", Json.num d)]⟩, none⟩
        | none => some ⟨⟨429, [], Json.obj [("error", Json.str (pyStr v))]⟩, none⟩
      else some ⟨⟨500, [], Json.obj [("error", Json.str (pyStr v))]⟩, none⟩) := by
    simp only [handlePlanResult, pyMemError, hmem, hlk, Option.getD_some]
  by_cases hrl : is_rate_limited (pyStr v) = true
  · rw [if_pos hrl] at hred
    cases hd : extractRetryAfter (pyStr v) with
    | some d =>
      rw [hd] at hred
      exact ⟨_, hred, Or.inl rfl, rfl, ⟨[("retry_after", Json.num d)], rfl⟩⟩
    | none =>
      rw [hd] at hred
      exact ⟨_, hred, Or.inl rfl, rfl, ⟨[], rfl⟩⟩
  · rw [if_neg hrl] at hred
    exact ⟨_, hred, Or.inr rfl, rfl, ⟨[], rfl⟩⟩

theorem c10_error_key_is_failure_witness :
    ∃ r : EndpointResult,
      handlePlanResult (Json.obj [("error", Json.str "boom")]) true = some r ∧
        (r.resp.status = 429 ∨ r.resp.status = 500) ∧ r.saved = none ∧
        ∃ rest, r.resp.body =
          Json.obj (("error", Json.str (pyStr (Json.str "boom"))) :: rest) :=
  c10_error_key_is_failure [("error", Json.str "boom")] (Json.str "boom") true rfl
